import Mathlib

/-!
# Verification of the leadgen scoring / filtering / deduplication core

Shallow embedding of the files leadgen/models.py and leadgen/filters.py.
Python floats are modelled as exact rationals (every constant in the source
is a short decimal, exactly representable in ℚ); Python round at three
decimals is modelled as round-half-to-even, the rounding mode Python uses.
Mutation of a Lead is modelled by returning the updated record alongside the
result.  Python truthiness of optional strings (None and the empty string are
falsy), of lists (empty is falsy) and of numbers (0 is falsy) is made
explicit at each test.
-/

namespace Leadgen

/-- `BudgetRange = Tuple[int, int]` from `models.py`. -/
abbrev BudgetRange := Int × Int

/-- The `Lead` dataclass from `models.py`.  The `analytics` mapping is only
ever observed through the truthiness of `analytics.get(key)`, so it is
embedded as an association list from keys to the truthiness of the stored
value; `extras` is likewise opaque passthrough data. -/
structure Lead where
  name : String
  location : Option String := none
  description : Option String := none
  phone : Option String := none
  website : Option String := none
  categories : List String := []
  source : String := "unknown"
  rating : Option ℚ := none
  review_count : Option Int := none
  analytics : List (String × Bool) := []
  extras : List (String × String) := []
  estimated_budget : Option BudgetRange := none
  growth_score : Option ℚ := none
  deriving DecidableEq, Repr

/-- Truthiness of `dict.get(key)`: the truthiness of the stored value, or falsy
when the key is absent. -/
def dictGet (d : List (String × Bool)) (key : String) : Bool :=
  (d.lookup key).getD false

/-- Contiguous sublist test on character lists (empty needle always found). -/
def charsContain (needle : List Char) : List Char → Bool
  | [] => needle.isEmpty
  | c :: rest => needle.isPrefixOf (c :: rest) || charsContain needle rest

/-- Python `needle in hay` on strings: contiguous substring test. -/
def strContains (hay needle : String) : Bool :=
  charsContain needle.toList hay.toList

/-- Truthiness of an optional string: `None` and `""` are falsy. -/
def truthyStr (o : Option String) : Bool :=
  o.getD "" ≠ ""

/-- Python str.lower, modelled characterwise (the texts the program
lowercases are ASCII). -/
def pyLower (s : String) : String :=
  String.mk (s.data.map Char.toLower)

/-- Python str.strip with no argument: remove leading and trailing
whitespace. -/
def pyStrip (s : String) : String :=
  String.mk
    (((s.data.dropWhile Char.isWhitespace).reverse.dropWhile
        Char.isWhitespace).reverse)

/-- Round-half-to-even to an integer, the rounding used by Python `round`. -/
def roundHalfEven (q : ℚ) : Int :=
  if q - ⌊q⌋ < 1/2 then ⌊q⌋
  else if q - ⌊q⌋ > 1/2 then ⌊q⌋ + 1
  else if Even ⌊q⌋ then ⌊q⌋ else ⌊q⌋ + 1

/-- Python `round(q, 3)` (on exact decimal inputs). -/
def round3 (q : ℚ) : ℚ :=
  (roundHalfEven (q * 1000) : ℚ) / 1000

/-- `GROWTH_KEYWORDS` from `filters.py`. -/
def GROWTH_KEYWORDS : List String :=
  ["growth", "marketing", "digital", "branding", "consulting", "innovation",
   "strategy", "venture", "capital", "accelerator", "coworking", "design",
   "development", "creative"]

/-- `CATEGORY_KEYWORDS` from `filters.py`. -/
def CATEGORY_KEYWORDS : List String :=
  ["marketing", "consultant", "agency", "design", "development", "software",
   "venture", "capital", "investment", "coworking", "accelerator", "branding",
   "creative", "studio", "strategy"]

/-- The local constant `max_score = 1.65` in `estimate_growth_score`. -/
def max_score : ℚ := 1.65

/-- The ad-click contribution: `if lead.analytics.get("adclick"): score += 0.25`. -/
def adclickBonus (lead : Lead) : ℚ :=
  if dictGet lead.analytics "adclick" then 0.25 else 0

/-- The website contribution: `if lead.website: score += 0.35`. -/
def websiteBonus (lead : Lead) : ℚ :=
  if truthyStr lead.website then 0.35 else 0

/-- The phone contribution: `if lead.phone: score += 0.1`. -/
def phoneBonus (lead : Lead) : ℚ :=
  if truthyStr lead.phone then 0.1 else 0

/-- The review-count tier contribution (`filters.py` lines 64-72): the outer
`if lead.review_count:` is Python truthiness, falsy exactly for `None`/`0`. -/
def reviewBonus (review_count : Option Int) : ℚ :=
  match review_count with
  | none => 0
  | some n =>
    if n = 0 then 0
    else if n ≥ 20 then 0.3
    else if n ≥ 10 then 0.25
    else if n ≥ 5 then 0.2
    else 0.1

/-- The rating tier contribution: the outer `if lead.rating:` is Python
truthiness, falsy exactly for `None`/`0.0`; a truthy rating below 3.5
contributes nothing. -/
def ratingBonus (rating : Option ℚ) : ℚ :=
  match rating with
  | none => 0
  | some r =>
    if r = 0 then 0
    else if r ≥ 4.5 then 0.25
    else if r ≥ 4.0 then 0.2
    else if r ≥ 3.5 then 0.15
    else 0

/-- `categories_text = " ".join(lead.categories).lower()`. -/
def categoriesText (lead : Lead) : String :=
  pyLower (String.intercalate " " lead.categories)

/-- `description_text = (lead.description or "").lower()`. -/
def descriptionText (lead : Lead) : String :=
  pyLower (lead.description.getD "")

/-- The flat non-empty-categories contribution: `if lead.categories: score += 0.1`. -/
def categoriesBonus (lead : Lead) : ℚ :=
  if lead.categories ≠ [] then 0.1 else 0

/-- `if any(keyword in categories_text for keyword in CATEGORY_KEYWORDS): score += 0.25`. -/
def categoryKeywordBonus (lead : Lead) : ℚ :=
  if CATEGORY_KEYWORDS.any (fun keyword => strContains (categoriesText lead) keyword)
  then 0.25 else 0

/-- `if description_text: score += 0.1`. -/
def descriptionBonus (lead : Lead) : ℚ :=
  if descriptionText lead ≠ "" then 0.1 else 0

/-- `if any(keyword in description_text for keyword in GROWTH_KEYWORDS): score += 0.25`. -/
def growthKeywordBonus (lead : Lead) : ℚ :=
  if GROWTH_KEYWORDS.any (fun keyword => strContains (descriptionText lead) keyword)
  then 0.25 else 0

/-- The accumulated `score` variable of `estimate_growth_score` just before
normalization: the sum of the nine independent signal contributions, in the
order the source adds them. -/
def rawScore (lead : Lead) : ℚ :=
  adclickBonus lead + websiteBonus lead + phoneBonus lead
    + reviewBonus lead.review_count + ratingBonus lead.rating
    + categoriesBonus lead + categoryKeywordBonus lead
    + descriptionBonus lead + growthKeywordBonus lead

/-- `estimate_growth_score` from `filters.py`:
`normalized = min(score / max_score, 1.0); return round(normalized, 3)`. -/
def estimate_growth_score (lead : Lead) : ℚ :=
  round3 (min (rawScore lead / max_score) 1)

/-- `estimate_budget_range` from `filters.py`.  The Python function mutates
`lead.growth_score`; the embedding returns the optional bracket together
with the updated lead. -/
def estimate_budget_range (lead : Lead) : Option BudgetRange × Lead :=
  let growth_score :=
    match lead.growth_score with
    | some g => g
    | none => estimate_growth_score lead
  let lead' := { lead with growth_score := some growth_score }
  (if growth_score ≥ 0.65 then some (4500, 6500)
   else if growth_score ≥ 0.45 then some (3200, 5200)
   else if growth_score ≥ 0.35 then some (2600, 4000)
   else if growth_score ≥ 0.25 then some (1800, 3000)
   else none, lead')

/-- `apply_budget_filter` from `filters.py`: estimates the budget of each lead
(persisting the bracket and growth score on the record), drops leads with
no bracket, and keeps a lead iff its bracket intersects `[minimum, maximum]`. -/
def apply_budget_filter : List Lead → Int → Int → List Lead
  | [], _, _ => []
  | lead :: rest, minimum, maximum =>
    let p := estimate_budget_range lead
    let lead' := { p.2 with estimated_budget := p.1 }
    match p.1 with
    | none => apply_budget_filter rest minimum maximum
    | some (low, high) =>
      if low ≤ maximum ∧ high ≥ minimum
      then lead' :: apply_budget_filter rest minimum maximum
      else apply_budget_filter rest minimum maximum

/-- The deduplication key from models.py: the lowercased name, a double-colon
separator, and the stripped phone string (empty when phone is absent). -/
def dedupKey (lead : Lead) : String :=
  pyLower lead.name ++ "::" ++ pyStrip (lead.phone.getD "")

/-- `lead.growth_score or 0`: a missing (or zero) score counts as 0. -/
def scoreOrZero (lead : Lead) : ℚ :=
  lead.growth_score.getD 0

/-- One iteration of the `deduplicate` loop over the insertion-ordered
dictionary `best_by_key`, embedded as an association list: a fresh key is
appended; on collision the stored lead is replaced in place iff the score of the new
lead is strictly higher. -/
def dedupStep (best_by_key : List (String × Lead)) (lead : Lead) :
    List (String × Lead) :=
  let key := dedupKey lead
  match best_by_key.lookup key with
  | none => best_by_key ++ [(key, lead)]
  | some existing =>
    if scoreOrZero lead > scoreOrZero existing then
      best_by_key.map (fun p => if p.1 = key then (key, lead) else p)
    else best_by_key

/-- `deduplicate` from `models.py`: fold the leads through the dictionary
and return `list(best_by_key.values())` (Python dicts preserve insertion
order, and in-place replacement keeps the original position of a key). -/
def deduplicate (leads : List Lead) : List Lead :=
  (leads.foldl dedupStep []).map Prod.snd

/-- A concrete lead hitting every signal at its top tier: truthy ad-click
entry, website, phone, 25 reviews, rating 4.7, a non-empty category list
matching a category keyword, and a non-empty description matching a growth
keyword. -/
def allSignalsLead : Lead :=
  { name := "Full Signal Co"
    description := some "Digital marketing and growth consulting"
    phone := some "555-0100"
    website := some "https://example.com"
    categories := ["Marketing Consultants"]
    rating := some 4.7
    review_count := some 25
    analytics := [("adclick", true)] }

/-- A minimal lead carrying a preset growth score, used to probe the
threshold ladder of estimate_budget_range. -/
def scoredLead (q : ℚ) : Lead :=
  { name := "x", growth_score := some q }

/-- Modelled from the words of the spec for the budget filter: the lead as
the Estimator persists it, carrying the freshly computed growth score and
the overwritten estimated budget. -/
def budgetProcessed (lead : Lead) : Lead :=
  { (estimate_budget_range lead).2 with
      estimated_budget := (estimate_budget_range lead).1 }

/-- Modelled from the words of the spec for the budget filter: keep iff the
bracket overlaps the window, that is bracket.low ≤ maximum and
bracket.high ≥ minimum; a lead with no bracket is dropped. -/
def overlapsWindow (minimum maximum : Int) (lead : Lead) : Bool :=
  match lead.estimated_budget with
  | none => false
  | some (low, high) => decide (low ≤ maximum) && decide (high ≥ minimum)

/-- One step of collecting keys in order of first sighting: append the key
of the next lead unless it was already seen. -/
def keyStep (ks : List String) (lead : Lead) : List String :=
  if dedupKey lead ∈ ks then ks else ks ++ [dedupKey lead]

/-- Modelled from the words of the spec for the deduplicator: the retained
keys in order of first sighting in the input. -/
def firstKeys (leads : List Lead) : List String :=
  leads.foldl keyStep []

/-- Modelled from the words of the spec for the deduplicator: between the
incumbent and a later duplicate, the later one wins only with a strictly
higher score (missing scores count as 0), so first-seen wins ties. -/
def pickBest (best lead : Lead) : Lead :=
  if scoreOrZero lead > scoreOrZero best then lead else best

/-- Modelled from the words of the spec for the deduplicator: the duplicate
of key k that survives, namely the left fold of pickBest over the leads
carrying key k, when any exist. -/
def winnerAt (k : String) (leads : List Lead) : Option Lead :=
  match leads.filter (fun lead => dedupKey lead == k) with
  | [] => none
  | best :: rest => some (rest.foldl pickBest best)

/-- The first lead of the dedup example in the spec: name Acme, phone 555,
growth score 0.3. -/
def leadAcme : Lead :=
  { name := "Acme", phone := some "555", growth_score := some 0.3 }

/-- The second lead of the dedup example in the spec: same identity up to
case, higher growth score 0.7. -/
def leadAcmeLower : Lead :=
  { name := "acme", phone := some "555", growth_score := some 0.7 }

/-- First key-k1 lead of the order example: key alpha::1, score 0.2. -/
def leadK1a : Lead :=
  { name := "Alpha", phone := some "1", growth_score := some 0.2 }

/-- The key-k2 lead of the order example: key beta::2, no score. -/
def leadK2 : Lead :=
  { name := "Beta", phone := some "2" }

/-- Second key-k1 lead of the order example: key alpha::1, score 0.9, so it
beats leadK1a yet must keep the first-seen position of key k1. -/
def leadK1b : Lead :=
  { name := "alpha", phone := some "1", growth_score := some 0.9 }

/-! ## Basic facts about the signal bonuses and the rounding helper -/

lemma adclickBonus_nonneg (lead : Lead) : 0 ≤ adclickBonus lead := by
  unfold adclickBonus; split <;> norm_num

lemma websiteBonus_nonneg (lead : Lead) : 0 ≤ websiteBonus lead := by
  unfold websiteBonus; split <;> norm_num

lemma phoneBonus_nonneg (lead : Lead) : 0 ≤ phoneBonus lead := by
  unfold phoneBonus; split <;> norm_num

lemma reviewBonus_nonneg (rc : Option Int) : 0 ≤ reviewBonus rc := by
  cases rc with
  | none => simp [reviewBonus]
  | some n => simp only [reviewBonus]; split_ifs <;> norm_num

lemma ratingBonus_nonneg (r : Option ℚ) : 0 ≤ ratingBonus r := by
  cases r with
  | none => simp [ratingBonus]
  | some x => simp only [ratingBonus]; split_ifs <;> norm_num

lemma categoriesBonus_nonneg (lead : Lead) : 0 ≤ categoriesBonus lead := by
  unfold categoriesBonus; split <;> norm_num

lemma categoryKeywordBonus_nonneg (lead : Lead) : 0 ≤ categoryKeywordBonus lead := by
  unfold categoryKeywordBonus; split <;> norm_num

lemma descriptionBonus_nonneg (lead : Lead) : 0 ≤ descriptionBonus lead := by
  unfold descriptionBonus; split <;> norm_num

lemma growthKeywordBonus_nonneg (lead : Lead) : 0 ≤ growthKeywordBonus lead := by
  unfold growthKeywordBonus; split <;> norm_num

lemma rawScore_nonneg (lead : Lead) : 0 ≤ rawScore lead := by
  unfold rawScore
  have h1 := adclickBonus_nonneg lead
  have h2 := websiteBonus_nonneg lead
  have h3 := phoneBonus_nonneg lead
  have h4 := reviewBonus_nonneg lead.review_count
  have h5 := ratingBonus_nonneg lead.rating
  have h6 := categoriesBonus_nonneg lead
  have h7 := categoryKeywordBonus_nonneg lead
  have h8 := descriptionBonus_nonneg lead
  have h9 := growthKeywordBonus_nonneg lead
  linarith

lemma roundHalfEven_nonneg (q : ℚ) (hq : 0 ≤ q) : 0 ≤ roundHalfEven q := by
  unfold roundHalfEven
  have h0 : (0 : Int) ≤ ⌊q⌋ := Int.floor_nonneg.mpr hq
  split_ifs <;> omega

lemma roundHalfEven_le_of_le (q : ℚ) (bound : Int) (h : q ≤ bound) :
    roundHalfEven q ≤ bound := by
  unfold roundHalfEven
  have hfl : (⌊q⌋ : ℚ) ≤ q := Int.floor_le q
  have h1 : ⌊q⌋ ≤ bound := by
    have := Int.floor_le_floor h
    simpa using this
  have hstrict : ¬ q - ⌊q⌋ < 1/2 → ⌊q⌋ + 1 ≤ bound := by
    intro hge
    push_neg at hge
    have hlt : (⌊q⌋ : ℚ) < bound := by linarith
    have : ⌊q⌋ < bound := by exact_mod_cast hlt
    omega
  split_ifs with hc1 hc2 hc3
  · exact h1
  · exact hstrict hc1
  · exact h1
  · exact hstrict hc1

lemma round3_nonneg (q : ℚ) (h0 : 0 ≤ q) : 0 ≤ round3 q := by
  unfold round3
  have := roundHalfEven_nonneg (q * 1000) (by linarith)
  have hc : (0 : ℚ) ≤ (roundHalfEven (q * 1000) : ℚ) := by exact_mod_cast this
  linarith

lemma round3_le_one (q : ℚ) (h1 : q ≤ 1) : round3 q ≤ 1 := by
  unfold round3
  have h : q * 1000 ≤ ((1000 : Int) : ℚ) := by push_cast; linarith
  have := roundHalfEven_le_of_le (q * 1000) 1000 h
  have hc : ((roundHalfEven (q * 1000) : Int) : ℚ) ≤ 1000 := by exact_mod_cast this
  linarith

lemma max_score_pos : (0 : ℚ) < max_score := by unfold max_score; norm_num

/-- C1: for every Lead, estimate_growth_score returns a value in the closed
interval from 0 to 1 that is an integer multiple of one thousandth, i.e. a
quantity rounded to three decimal places. -/
theorem growth_score_unit_interval_three_decimals (lead : Lead) :
    0 ≤ estimate_growth_score lead ∧ estimate_growth_score lead ≤ 1 ∧
      ∃ n : Int, estimate_growth_score lead = (n : ℚ) / 1000 := by
  unfold estimate_growth_score
  have hmin0 : 0 ≤ min (rawScore lead / max_score) 1 :=
    le_min (div_nonneg (rawScore_nonneg lead) (le_of_lt max_score_pos)) zero_le_one
  have hmin1 : min (rawScore lead / max_score) 1 ≤ 1 := min_le_right _ _
  refine ⟨round3_nonneg _ hmin0, round3_le_one _ hmin1,
    roundHalfEven (min (rawScore lead / max_score) 1 * 1000), rfl⟩

/-! ## Evaluation of the scorer on the all-signals lead -/

lemma round3_one : round3 1 = 1 := by
  have h1 : ((1 : ℚ) * 1000) = ((1000 : Int) : ℚ) := by push_cast; ring
  have h : roundHalfEven ((1 : ℚ) * 1000) = 1000 := by
    rw [roundHalfEven, h1]
    norm_num
  rw [round3, h]
  norm_num

lemma rawScore_allSignalsLead : rawScore allSignalsLead = 1.95 := by
  have h1 : dictGet allSignalsLead.analytics "adclick" = true := by decide
  have h2 : truthyStr allSignalsLead.website = true := by decide
  have h3 : truthyStr allSignalsLead.phone = true := by decide
  have h4 : (CATEGORY_KEYWORDS.any
      fun keyword => strContains (categoriesText allSignalsLead) keyword) = true := by
    decide
  have h5 : descriptionText allSignalsLead ≠ "" := by decide
  have h6 : (GROWTH_KEYWORDS.any
      fun keyword => strContains (descriptionText allSignalsLead) keyword) = true := by
    decide
  have hr : reviewBonus allSignalsLead.review_count = 0.3 := by
    show reviewBonus (some 25) = 0.3
    norm_num [reviewBonus]
  have hg : ratingBonus allSignalsLead.rating = 0.25 := by
    show ratingBonus (some 4.7) = 0.25
    norm_num [ratingBonus]
  have hc : allSignalsLead.categories ≠ [] := by decide
  rw [rawScore, adclickBonus, websiteBonus, phoneBonus, categoriesBonus,
    categoryKeywordBonus, descriptionBonus, growthKeywordBonus,
    h1, h2, h3, h4, h6, if_pos h5, if_pos hc, hr, hg]
  norm_num

lemma estimate_growth_score_eq_one_of_rawScore (lead : Lead)
    (h : rawScore lead = 1.95) : estimate_growth_score lead = 1 := by
  rw [estimate_growth_score, h]
  have hge : (1 : ℚ) ≤ 1.95 / max_score := by
    rw [max_score]; norm_num
  rw [min_eq_right hge, round3_one]

/-- C2 counterexample: the fixed denominator max_score is 1.65, while the
sum of the top bonus of every signal, realized as the raw score of the
all-signals lead, is 1.95, so the two are not equal as the claim states. -/
theorem max_score_ne_top_bonus_sum :
    rawScore allSignalsLead = 1.95 ∧ max_score = 1.65 ∧
      rawScore allSignalsLead ≠ max_score := by
  refine ⟨rawScore_allSignalsLead, rfl, ?_⟩
  rw [rawScore_allSignalsLead, max_score]
  norm_num

/-- C2 amended: the normalizing denominator 1.65 is strictly smaller than
the sum 1.95 of all attainable top-tier bonuses, so the pre-clamp ratio of
a lead hitting every signal exceeds 1, and the clamp still yields a final
score of exactly 1.0. -/
theorem max_score_lt_top_bonus_sum :
    max_score < rawScore allSignalsLead ∧
      1 < rawScore allSignalsLead / max_score ∧
      estimate_growth_score allSignalsLead = 1 := by
  refine ⟨?_, ?_, estimate_growth_score_eq_one_of_rawScore _ rawScore_allSignalsLead⟩
  · rw [rawScore_allSignalsLead, max_score]; norm_num
  · rw [rawScore_allSignalsLead, max_score]; norm_num

/-- C3: every lead with all positive signals at their top tiers (truthy
ad-click analytics entry, website, phone, at least 20 reviews, rating at
least 4.5, non-empty categories matching a category keyword, non-empty
description matching a growth keyword) scores exactly 1.0. -/
theorem all_top_signals_score_one (lead : Lead)
    (h1 : dictGet lead.analytics "adclick" = true)
    (h2 : truthyStr lead.website = true)
    (h3 : truthyStr lead.phone = true)
    (h4 : ∃ n, lead.review_count = some n ∧ n ≥ 20)
    (h5 : ∃ r, lead.rating = some r ∧ r ≥ 4.5)
    (h6 : lead.categories ≠ [])
    (h7 : (CATEGORY_KEYWORDS.any
      fun keyword => strContains (categoriesText lead) keyword) = true)
    (h8 : descriptionText lead ≠ "")
    (h9 : (GROWTH_KEYWORDS.any
      fun keyword => strContains (descriptionText lead) keyword) = true) :
    estimate_growth_score lead = 1 := by
  apply estimate_growth_score_eq_one_of_rawScore
  obtain ⟨n, hn, hn20⟩ := h4
  obtain ⟨r, hrr, hr45⟩ := h5
  have hr : reviewBonus lead.review_count = 0.3 := by
    rw [hn]
    simp only [reviewBonus]
    rw [if_neg (by omega), if_pos (by omega)]
  have hg : ratingBonus lead.rating = 0.25 := by
    have hr0 : r ≠ 0 := by
      intro h0
      rw [h0] at hr45
      norm_num at hr45
    rw [hrr]
    simp only [ratingBonus]
    rw [if_neg hr0, if_pos hr45]
  rw [rawScore, adclickBonus, websiteBonus, phoneBonus, categoriesBonus,
    categoryKeywordBonus, descriptionBonus, growthKeywordBonus,
    h1, h2, h3, h7, h9, if_pos h8, if_pos h6, hr, hg]
  norm_num

/-- C3 witness: the all-signals lead satisfies every hypothesis and scores
exactly 1.0. -/
theorem all_top_signals_score_one_witness :
    estimate_growth_score allSignalsLead = 1 :=
  all_top_signals_score_one allSignalsLead (by decide) (by decide) (by decide)
    ⟨25, rfl, by norm_num⟩ ⟨4.7, rfl, by norm_num⟩ (by decide) (by decide)
    (by decide) (by decide)

/-! ## The budget threshold ladder -/

/-- C4: a growth score of 0.8 yields the bracket (4500, 6500), 0.5 yields
the second-tier bracket (3200, 5200), 0.1 yields no bracket, and a score
equal to any threshold qualifies for the tier of that threshold. -/
theorem budget_threshold_ladder :
    (estimate_budget_range (scoredLead 0.8)).1 = some (4500, 6500) ∧
      (estimate_budget_range (scoredLead 0.5)).1 = some (3200, 5200) ∧
      (estimate_budget_range (scoredLead 0.1)).1 = none ∧
      (estimate_budget_range (scoredLead 0.65)).1 = some (4500, 6500) ∧
      (estimate_budget_range (scoredLead 0.45)).1 = some (3200, 5200) ∧
      (estimate_budget_range (scoredLead 0.35)).1 = some (2600, 4000) ∧
      (estimate_budget_range (scoredLead 0.25)).1 = some (1800, 3000) := by
  refine ⟨?_, ?_, ?_, ?_, ?_, ?_, ?_⟩ <;>
    (rw [estimate_budget_range]; norm_num [scoredLead])

/-- C5 counterexample: the second-tier bracket (3200, 5200) does not lie
entirely below the top-tier bracket (4500, 6500): its high end 5200 is not
below the higher low end 4500, so the brackets overlap on 4500 to 5200,
refuting the claimed pairwise non-overlap. -/
theorem adjacent_brackets_overlap :
    (estimate_budget_range (scoredLead 0.5)).1 = some (3200, 5200) ∧
      (estimate_budget_range (scoredLead 0.8)).1 = some (4500, 6500) ∧
      ¬ (5200 : Int) < 4500 ∧ (4500 : Int) ≤ 5200 := by
  refine ⟨?_, ?_, by norm_num, by norm_num⟩ <;>
    (rw [estimate_budget_range]; norm_num [scoredLead])

/-- C5 amended: the four brackets of the descending threshold ladder are
pairwise distinct and ascending in both endpoints (lows 1800, 2600, 3200,
4500 and highs 3000, 4000, 5200, 6500 both strictly increase with the
tier), but each bracket overlaps the bracket of the adjacent tier rather
than lying entirely below it. -/
theorem brackets_distinct_ascending :
    (estimate_budget_range (scoredLead 0.25)).1 = some (1800, 3000) ∧
      (estimate_budget_range (scoredLead 0.35)).1 = some (2600, 4000) ∧
      (estimate_budget_range (scoredLead 0.45)).1 = some (3200, 5200) ∧
      (estimate_budget_range (scoredLead 0.65)).1 = some (4500, 6500) ∧
      ((1800 : Int) < 2600 ∧ (2600 : Int) < 3200 ∧ (3200 : Int) < 4500) ∧
      ((3000 : Int) < 4000 ∧ (4000 : Int) < 5200 ∧ (5200 : Int) < 6500) ∧
      ((2600 : Int) ≤ 3000 ∧ (3200 : Int) ≤ 4000 ∧ (4500 : Int) ≤ 5200) := by
  refine ⟨?_, ?_, ?_, ?_, by norm_num, by norm_num, by norm_num⟩ <;>
    (rw [estimate_budget_range]; norm_num [scoredLead])

/-! ## Idempotence of the estimator -/

/-- C9: estimating the budget twice in a row on the same lead returns the
same optional bracket both times and leaves the stored growth score of the
lead unchanged after the second call. -/
theorem estimate_budget_range_idempotent (lead : Lead) :
    (estimate_budget_range ((estimate_budget_range lead).2)).1
        = (estimate_budget_range lead).1 ∧
      ((estimate_budget_range ((estimate_budget_range lead).2)).2).growth_score
        = ((estimate_budget_range lead).2).growth_score := by
  unfold estimate_budget_range
  exact ⟨rfl, rfl⟩

/-! ## Negative review counts -/

lemma rawScore_set_review (lead : Lead) (rc : Option Int) :
    rawScore { lead with review_count := rc }
      = adclickBonus lead + websiteBonus lead + phoneBonus lead
        + reviewBonus rc + ratingBonus lead.rating + categoriesBonus lead
        + categoryKeywordBonus lead + descriptionBonus lead
        + growthKeywordBonus lead := rfl

/-- C10: a negative review count is truthy in Python, so it falls through
every tier test and collects the lowest review-tier bonus 0.1, the same
contribution as any review count from 1 to 4; only a review count of 0 or
None contributes nothing. -/
theorem negative_review_count_lowest_tier (lead : Lead) (n : Int) (h : n < 0) :
    rawScore { lead with review_count := some n }
        = rawScore { lead with review_count := none } + 0.1 ∧
      reviewBonus (some n) = 0.1 ∧
      (∀ m : Int, 1 ≤ m → m ≤ 4 → reviewBonus (some m) = reviewBonus (some n)) ∧
      reviewBonus (some 0) = 0 ∧ reviewBonus none = 0 := by
  have hb : reviewBonus (some n) = 0.1 := by
    simp only [reviewBonus]
    rw [if_neg (by omega), if_neg (by omega), if_neg (by omega), if_neg (by omega)]
  refine ⟨?_, hb, ?_, by norm_num [reviewBonus], rfl⟩
  · rw [rawScore_set_review, rawScore_set_review, hb]
    have hnone : reviewBonus none = 0 := rfl
    rw [hnone]
    ring
  · intro m hm1 hm4
    rw [hb]
    simp only [reviewBonus]
    rw [if_neg (by omega), if_neg (by omega), if_neg (by omega), if_neg (by omega)]

/-- C10 witness: at review count -5 on a concrete lead the review signal
contributes exactly the lowest-tier bonus 0.1. -/
theorem negative_review_count_lowest_tier_witness :
    (-5 : Int) < 0 ∧
      rawScore { leadK2 with review_count := some (-5) }
        = rawScore { leadK2 with review_count := none } + 0.1 :=
  ⟨by norm_num, (negative_review_count_lowest_tier leadK2 (-5) (by norm_num)).1⟩

/-! ## The budget filter -/

/-- C6: with a well-formed window, the filter returns exactly the processed
leads whose bracket satisfies low ≤ maximum and high ≥ minimum, drops every
lead whose estimation yields no bracket, and keeps the survivors in input
order: it is a map of the estimator followed by a filter of the overlap
test. -/
theorem apply_budget_filter_keeps_overlapping (leads : List Lead)
    (minimum maximum : Int) (hwindow : minimum ≤ maximum) :
    apply_budget_filter leads minimum maximum
      = (leads.map budgetProcessed).filter (overlapsWindow minimum maximum) := by
  induction leads with
  | nil => rfl
  | cons lead rest ih =>
    have hb : (budgetProcessed lead).estimated_budget
        = (estimate_budget_range lead).1 := rfl
    simp only [apply_budget_filter, List.map_cons, List.filter_cons]
    cases hbr : (estimate_budget_range lead).1 with
    | none =>
      simp only [overlapsWindow, hb, hbr]
      exact ih
    | some br =>
      obtain ⟨low, high⟩ := br
      simp only [overlapsWindow, hb, hbr]
      by_cases hcond : low ≤ maximum ∧ high ≥ minimum
      · rw [if_pos hcond]
        have : (decide (low ≤ maximum) && decide (high ≥ minimum)) = true := by
          simp [hcond.1, hcond.2]
        rw [this]
        simp only [if_true]
        have hlead : { (estimate_budget_range lead).2 with
            estimated_budget := (estimate_budget_range lead).1 }
              = budgetProcessed lead := rfl
        rw [ih]
        rw [← hlead, hbr]
      · rw [if_neg hcond]
        have : (decide (low ≤ maximum) && decide (high ≥ minimum)) = false := by
          rcases Decidable.not_and_iff_or_not.mp hcond with h1 | h1 <;> simp [h1]
        rw [this]
        simp only [Bool.false_eq_true, if_false]
        exact ih

/-- C6 witness: a two-lead run with window 3000 to 5000 instantiates the
filter characterization. -/
theorem apply_budget_filter_keeps_overlapping_witness :
    (3000 : Int) ≤ 5000 ∧
      apply_budget_filter [allSignalsLead, leadK2] 3000 5000
        = ([allSignalsLead, leadK2].map budgetProcessed).filter
            (overlapsWindow 3000 5000) :=
  ⟨by norm_num,
    apply_budget_filter_keeps_overlapping [allSignalsLead, leadK2] 3000 5000
      (by norm_num)⟩

/-! ## Deduplication: the surviving association list, characterized -/

lemma mem_foldl_keyStep (leads : List Lead) (init : List String) (k : String) :
    k ∈ leads.foldl keyStep init ↔ k ∈ init ∨ ∃ l ∈ leads, dedupKey l = k := by
  induction leads generalizing init with
  | nil => simp
  | cons l rest ih =>
    rw [List.foldl_cons, ih]
    unfold keyStep
    split_ifs with hm
    · constructor
      · rintro (hk | ⟨x, hx, hkx⟩)
        · exact Or.inl hk
        · exact Or.inr ⟨x, List.mem_cons_of_mem _ hx, hkx⟩
      · rintro (hk | ⟨x, hx, hkx⟩)
        · exact Or.inl hk
        · rcases List.mem_cons.mp hx with rfl | hx2
          · exact Or.inl (hkx ▸ hm)
          · exact Or.inr ⟨x, hx2, hkx⟩
    · constructor
      · rintro (hk | ⟨x, hx, hkx⟩)
        · rcases List.mem_append.mp hk with hk2 | hk2
          · exact Or.inl hk2
          · have hkl : k = dedupKey l := by simpa using hk2
            exact Or.inr ⟨l, List.mem_cons_self _ _, hkl.symm⟩
        · exact Or.inr ⟨x, List.mem_cons_of_mem _ hx, hkx⟩
      · rintro (hk | ⟨x, hx, hkx⟩)
        · exact Or.inl (List.mem_append.mpr (Or.inl hk))
        · rcases List.mem_cons.mp hx with rfl | hx2
          · exact Or.inl (List.mem_append.mpr (Or.inr (by simp [hkx])))
          · exact Or.inr ⟨x, hx2, hkx⟩

lemma firstKeys_mem (leads : List Lead) (k : String) :
    k ∈ firstKeys leads ↔ ∃ l ∈ leads, dedupKey l = k := by
  rw [firstKeys, mem_foldl_keyStep]
  simp

lemma lookup_key_pairs (ks : List String) (f : String → Option Lead)
    (k : String) :
    (ks.filterMap (fun k0 => (f k0).map (fun w => (k0, w)))).lookup k
      = if k ∈ ks then f k else none := by
  induction ks with
  | nil => simp
  | cons k0 rest ih =>
    rw [List.filterMap_cons]
    by_cases hk : k = k0
    · subst hk
      cases hf : f k with
      | none => simp [hf, ih]
      | some w => simp [hf, List.lookup]
    · cases hf : f k0 with
      | none => simp [hf, ih, hk]
      | some w =>
        have hbeq : (k == k0) = false := beq_eq_false_iff_ne.mpr hk
        simp [hf, List.lookup, hbeq, hk, ih]

lemma winnerAt_append_ne (ld : List Lead) (l : Lead) (k : String)
    (hk : dedupKey l ≠ k) : winnerAt k (ld ++ [l]) = winnerAt k ld := by
  unfold winnerAt
  rw [List.filter_append]
  have hfl : List.filter (fun lead => dedupKey lead == k) [l] = [] := by
    simp [List.filter_cons, hk]
  rw [hfl, List.append_nil]

lemma winnerAt_append_none (ld : List Lead) (l : Lead)
    (hnone : winnerAt (dedupKey l) ld = none) :
    winnerAt (dedupKey l) (ld ++ [l]) = some l := by
  unfold winnerAt at hnone ⊢
  rw [List.filter_append]
  cases hfl : List.filter (fun lead => dedupKey lead == dedupKey l) ld with
  | nil => simp [List.filter_cons]
  | cons best rest => rw [hfl] at hnone; simp at hnone

lemma winnerAt_append_some (ld : List Lead) (l w : Lead)
    (hw : winnerAt (dedupKey l) ld = some w) :
    winnerAt (dedupKey l) (ld ++ [l]) = some (pickBest w l) := by
  unfold winnerAt at hw ⊢
  rw [List.filter_append]
  have hfll : List.filter (fun lead => dedupKey lead == dedupKey l) [l] = [l] := by
    simp [List.filter_cons]
  rw [hfll]
  cases hfl : List.filter (fun lead => dedupKey lead == dedupKey l) ld with
  | nil => rw [hfl] at hw; simp at hw
  | cons best rest =>
    rw [hfl] at hw
    have hw2 : some (rest.foldl pickBest best) = some w := hw
    injection hw2 with hw3
    show some ((rest ++ [l]).foldl pickBest best) = some (pickBest w l)
    rw [List.foldl_append, List.foldl_cons, List.foldl_nil, hw3]

lemma winnerAt_eq_none_iff (k : String) (leads : List Lead) :
    winnerAt k leads = none ↔ ∀ l ∈ leads, dedupKey l ≠ k := by
  unfold winnerAt
  cases hfl : List.filter (fun lead => dedupKey lead == k) leads with
  | nil =>
    constructor
    · intro _ l hl hkey
      have hmem : l ∈ List.filter (fun lead => dedupKey lead == k) leads :=
        List.mem_filter.mpr ⟨hl, by simp [hkey]⟩
      rw [hfl] at hmem
      exact absurd hmem (List.not_mem_nil l)
    · intro _
      rfl
  | cons best rest =>
    constructor
    · intro h
      exact Option.noConfusion h
    · intro h
      have hmem : best ∈ List.filter (fun lead => dedupKey lead == k) leads := by
        rw [hfl]
        exact List.mem_cons_self _ _
      have hb : dedupKey best = k := by
        simpa using List.of_mem_filter hmem
      exact absurd hb (h best (List.mem_filter.mp hmem).1)

lemma foldl_pickBest_mem (rest : List Lead) (best : Lead) :
    rest.foldl pickBest best ∈ best :: rest := by
  induction rest generalizing best with
  | nil => simp
  | cons x xs ih =>
    rw [List.foldl_cons]
    have hp : pickBest best x = x ∨ pickBest best x = best := by
      unfold pickBest
      split_ifs
      · exact Or.inl rfl
      · exact Or.inr rfl
    rcases List.mem_cons.mp (ih (pickBest best x)) with h | h
    · rcases hp with hx | hb
      · rw [h, hx]
        exact List.mem_cons_of_mem _ (List.mem_cons_self _ _)
      · rw [h, hb]
        exact List.mem_cons_self _ _
    · exact List.mem_cons_of_mem _ (List.mem_cons_of_mem _ h)

lemma winnerAt_key (k : String) (leads : List Lead) (w : Lead)
    (h : winnerAt k leads = some w) : dedupKey w = k := by
  unfold winnerAt at h
  cases hfl : List.filter (fun lead => dedupKey lead == k) leads with
  | nil => rw [hfl] at h; exact Option.noConfusion h
  | cons best rest =>
    rw [hfl] at h
    have h2 : some (rest.foldl pickBest best) = some w := h
    injection h2 with h3
    have hmem := foldl_pickBest_mem rest best
    rw [h3] at hmem
    have hmem2 : w ∈ List.filter (fun lead => dedupKey lead == k) leads := by
      rw [hfl]
      exact hmem
    simpa using List.of_mem_filter hmem2

lemma dedup_assoc_char (leads : List Lead) :
    leads.foldl dedupStep []
      = (firstKeys leads).filterMap
          (fun k => (winnerAt k leads).map (fun w => (k, w))) := by
  induction leads using List.reverseRecOn with
  | nil => rfl
  | append_singleton ld l ih =>
    rw [List.foldl_append, List.foldl_cons, List.foldl_nil, ih]
    have hkeys : firstKeys (ld ++ [l]) = keyStep (firstKeys ld) l := by
      rw [firstKeys, firstKeys, List.foldl_append, List.foldl_cons,
        List.foldl_nil]
    rw [hkeys]
    unfold keyStep
    by_cases hmem : dedupKey l ∈ firstKeys ld
    · rw [if_pos hmem]
      have hwin : winnerAt (dedupKey l) ld ≠ none := by
        rw [Ne, winnerAt_eq_none_iff]
        push_neg
        obtain ⟨x, hx, hkx⟩ := (firstKeys_mem ld _).mp hmem
        exact ⟨x, hx, hkx⟩
      obtain ⟨w, hw⟩ := Option.ne_none_iff_exists'.mp hwin
      have hlook : (List.filterMap
          (fun k => (winnerAt k ld).map (fun w => (k, w)))
          (firstKeys ld)).lookup (dedupKey l) = some w := by
        rw [lookup_key_pairs, if_pos hmem, hw]
      simp only [dedupStep, hlook]
      have hsame := winnerAt_append_some ld l w hw
      by_cases hgt : scoreOrZero l > scoreOrZero w
      · rw [if_pos hgt, List.map_filterMap]
        apply List.filterMap_congr
        intro k0 hk0
        by_cases hk : k0 = dedupKey l
        · subst hk
          rw [hw, hsame]
          simp [pickBest, hgt]
        · rw [winnerAt_append_ne ld l k0 (fun he => hk he.symm)]
          cases hwk : winnerAt k0 ld with
          | none => simp
          | some w0 => simp [hk]
      · rw [if_neg hgt]
        apply List.filterMap_congr
        intro k0 hk0
        by_cases hk : k0 = dedupKey l
        · subst hk
          rw [hw, hsame]
          simp [pickBest, hgt]
        · rw [winnerAt_append_ne ld l k0 (fun he => hk he.symm)]
    · rw [if_neg hmem]
      have hnone : winnerAt (dedupKey l) ld = none := by
        rw [winnerAt_eq_none_iff]
        intro x hx hkx
        exact hmem ((firstKeys_mem ld _).mpr ⟨x, hx, hkx⟩)
      have hlook : (List.filterMap
          (fun k => (winnerAt k ld).map (fun w => (k, w)))
          (firstKeys ld)).lookup (dedupKey l) = none := by
        rw [lookup_key_pairs, if_neg hmem]
      simp only [dedupStep, hlook]
      rw [List.filterMap_append]
      congr 1
      · apply List.filterMap_congr
        intro k0 hk0
        have hk : dedupKey l ≠ k0 := fun he => hmem (he ▸ hk0)
        rw [winnerAt_append_ne ld l k0 hk]
      · simp [winnerAt_append_none ld l hnone]

lemma deduplicate_eq_winners (leads : List Lead) :
    deduplicate leads = (firstKeys leads).filterMap (fun k => winnerAt k leads) := by
  rw [deduplicate, dedup_assoc_char, List.map_filterMap]
  apply List.filterMap_congr
  intro k hk
  cases hw : winnerAt k leads with
  | none => rfl
  | some w => rfl

lemma map_dedupKey_filterMap (leads : List Lead) (ks : List String)
    (h : ∀ k ∈ ks, ∃ w, winnerAt k leads = some w ∧ dedupKey w = k) :
    (ks.filterMap (fun k => winnerAt k leads)).map dedupKey = ks := by
  induction ks with
  | nil => rfl
  | cons k rest ih =>
    obtain ⟨w, hw, hwk⟩ := h k (List.mem_cons_self _ _)
    simp only [List.filterMap_cons, hw]
    rw [List.map_cons, hwk, ih (fun x hx => h x (List.mem_cons_of_mem _ hx))]

lemma dedup_keys_eq_firstKeys (leads : List Lead) :
    (deduplicate leads).map dedupKey = firstKeys leads := by
  rw [deduplicate_eq_winners]
  apply map_dedupKey_filterMap
  intro k hk
  cases hw : winnerAt k leads with
  | none =>
    obtain ⟨x, hx, hkx⟩ := (firstKeys_mem leads k).mp hk
    rw [winnerAt_eq_none_iff] at hw
    exact absurd hkx (hw x hx)
  | some w => exact ⟨w, rfl, winnerAt_key k leads w hw⟩

/-- C7: deduplication collapses the leads key by key: the output is, for
each first-seen identity key, the duplicate surviving the left fold of
pickBest over the leads with that key, so the strictly higher-scoring
duplicate wins and the first-seen lead wins ties; in particular the two
Acme leads differing only in name case collapse to the single lead with
the higher score 0.7. -/
theorem deduplicate_keeps_highest_score :
    (∀ leads : List Lead,
        deduplicate leads
          = (firstKeys leads).filterMap (fun k => winnerAt k leads)) ∧
      deduplicate [leadAcme, leadAcmeLower] = [leadAcmeLower] := by
  refine ⟨deduplicate_eq_winners, ?_⟩
  have hkA : dedupKey leadAcme = "acme::555" := by decide
  have hkB : dedupKey leadAcmeLower = "acme::555" := by decide
  have hs : scoreOrZero leadAcmeLower > scoreOrZero leadAcme := by
    norm_num [scoreOrZero, leadAcme, leadAcmeLower]
  simp [deduplicate, dedupStep, hkA, hkB, List.lookup, hs]

/-- C8: the output of deduplicate lists the retained keys in first-seen
input order, whichever duplicate of a key is retained; on the concrete key
pattern k1, k2, k1 the output is the winner of k1 followed by the k2 lead. -/
theorem deduplicate_first_seen_order :
    (∀ leads : List Lead, (deduplicate leads).map dedupKey = firstKeys leads) ∧
      (deduplicate [leadK1a, leadK2, leadK1b]).map dedupKey
          = [dedupKey leadK1a, dedupKey leadK2] ∧
      deduplicate [leadK1a, leadK2, leadK1b] = [leadK1b, leadK2] := by
  have hk1 : dedupKey leadK1a = "alpha::1" := by decide
  have hk2 : dedupKey leadK2 = "beta::2" := by decide
  have hk3 : dedupKey leadK1b = "alpha::1" := by decide
  have hb1 : (("beta::2" : String) == "alpha::1") = false := by decide
  have hne : ("beta::2" : String) ≠ "alpha::1" := by decide
  have hs : scoreOrZero leadK1b > scoreOrZero leadK1a := by
    norm_num [scoreOrZero, leadK1a, leadK1b]
  have hdd : deduplicate [leadK1a, leadK2, leadK1b] = [leadK1b, leadK2] := by
    simp [deduplicate, dedupStep, hk1, hk2, hk3, hb1, hne, List.lookup, hs]
  refine ⟨dedup_keys_eq_firstKeys, ?_, hdd⟩
  rw [hdd, hk1, hk2]
  decide

end Leadgen
